import Mathlib

/-!
Verification of the identifier-format subsystem of release-please:
`Version` (src/version.ts), the `VersionFormat` dialects
(src/version-format.ts), `BranchName` (src/util/branch-name.ts) and
`TagName` (src/util/tag-name.ts).

Text is modelled as `List Char` internally (JavaScript strings), with
`String` wrappers at the API boundary.  JavaScript regular expressions are
embedded as explicit matching functions: each pattern used by the source is
translated to a total Lean function that mirrors the backtracking order of
the JS engine on that particular pattern (greedy quantifiers prefer the
longest capture, alternatives are tried left to right, `.` does not match a
line terminator, negated classes do).
-/

namespace ReleasePlease

/-- JavaScript line terminators, which `.` in a regex does not match. -/
def lineTerm (c : Char) : Bool :=
  c = '\n' || c = '\r' || c = (Char.ofNat 0x2028) || c = (Char.ofNat 0x2029)

/-- What `.` matches in a JS regex (any char that is not a line terminator). -/
def jsDot (c : Char) : Bool := !lineTerm c

/-- The JS `\w` class: ASCII letters, digits and underscore. -/
def isWordChar (c : Char) : Bool := c.isAlpha || c.isDigit || c = '_'

/-- The `[\w-.]` class of the Autorelease branch pattern. -/
def autoClass (c : Char) : Bool := isWordChar c || c = '-' || c = '.'

/-- Numeric value of a digit string, as JS `Number` computes it on `\d+`. -/
def digitsVal (s : List Char) : Nat :=
  s.foldl (fun n c => n * 10 + (c.toNat - 48)) 0

/-- Split a char list on a separator char, like JS `String.split` with a
single-char separator. -/
def splitOnChar (sep : Char) : List Char → List (List Char)
  | [] => [[]]
  | c :: cs =>
    let r := splitOnChar sep cs
    if c = sep then [] :: r
    else
      match r with
      | [] => [[c]]
      | h :: t => (c :: h) :: t

/-- The pattern `pat` occurs in `l` starting at index `k`. -/
def occursAt (pat l : List Char) (k : Nat) : Prop :=
  (l.drop k).take pat.length = pat

instance (pat l : List Char) (k : Nat) : Decidable (occursAt pat l k) := by
  unfold occursAt; infer_instance

/-- The data class of src/version.ts: major/minor/patch plus optional
prerelease and build strings. -/
structure Version where
  major : Nat
  minor : Nat
  patch : Nat
  preRelease : Option String := none
  build : Option String := none
deriving DecidableEq, Repr

/-- JS truthiness of an optional string: present and nonempty. -/
def truthy : Option String → Bool
  | none => false
  | some s => !s.isEmpty

/-- Version.toString from src/version.ts: canonical SemVer rendering
`major.minor.patch[-preRelease][+build]`, with falsy (absent or empty)
parts omitted. -/
def Version.toStr (v : Version) : String :=
  let preReleasePart := match v.preRelease with
    | some p => if p.isEmpty then "" else "-" ++ p
    | none => ""
  let buildPart := match v.build with
    | some b => if b.isEmpty then "" else "+" ++ b
    | none => ""
  toString v.major ++ "." ++ toString v.minor ++ "." ++ toString v.patch
    ++ preReleasePart ++ buildPart

/-! ### Version comparison

`Version.compare` in src/version.ts delegates to `semver.compare` of the
external `semver` npm package applied to the two `toString` renderings.
That package is not part of this repository, so its comparison is modelled
from the spec. -/

/-- A purely numeric prerelease identifier (`/^[0-9]+$/`). -/
def isNumericIdent (s : List Char) : Bool := !s.isEmpty && s.all (·.isDigit)

/-- Three-way comparison of naturals as an Int in {-1, 0, 1}. -/
def natCmp (x y : Nat) : Int := if x < y then -1 else if y < x then 1 else 0

/-- Lexicographic char-by-char comparison, as JS `<` on strings. -/
def strCmp : List Char → List Char → Int
  | [], [] => 0
  | [], _ :: _ => -1
  | _ :: _, [] => 1
  | a :: as, b :: bs => if a < b then -1 else if b < a then 1 else strCmp as bs

/-- Modelled from the spec: comparison of single prerelease identifiers by
the semver package (`compareIdentifiers`): purely numeric identifiers
compare numerically, an identifier with a non-digit compares lexically, a
numeric identifier is less than an alphanumeric one. -/
def compareIdent (a b : List Char) : Int :=
  if isNumericIdent a && isNumericIdent b then natCmp (digitsVal a) (digitsVal b)
  else if a = b then 0
  else if isNumericIdent a then -1
  else if isNumericIdent b then 1
  else strCmp a b

/-- Modelled from the spec: identifier-by-identifier comparison of two
dot-separated prerelease sequences; a strict prefix sequence is less. -/
def compareIdentList : List (List Char) → List (List Char) → Int
  | [], [] => 0
  | [], _ :: _ => -1
  | _ :: _, [] => 1
  | a :: as, b :: bs =>
    let c := compareIdent a b
    if c = 0 then compareIdentList as bs else c

/-- The prerelease identifier sequence seen by the semver package after
`toString`: absent when the preRelease field is falsy, else the field
split on dots. -/
def preIds (v : Version) : Option (List (List Char)) :=
  match v.preRelease with
  | none => none
  | some p => if p.isEmpty then none else some (splitOnChar '.' p.data)

/-- Modelled from the spec: comparison of optional prerelease sequences; a
version with no prerelease is strictly greater than one with a
prerelease. -/
def preCmp : Option (List (List Char)) → Option (List (List Char)) → Int
  | none, none => 0
  | none, some _ => 1
  | some _, none => -1
  | some x, some y => compareIdentList x y

/-- Version.compare from src/version.ts (via the semver package, modelled
from the spec): major, then minor, then patch numerically, then the
prerelease rule; build metadata is never considered. -/
def Version.compare (a b : Version) : Int :=
  if natCmp a.major b.major ≠ 0 then natCmp a.major b.major
  else if natCmp a.minor b.minor ≠ 0 then natCmp a.minor b.minor
  else if natCmp a.patch b.patch ≠ 0 then natCmp a.patch b.patch
  else preCmp (preIds a) (preIds b)

/-! ### VersionFormat dialects (src/version-format.ts)

Both regexes are unanchored, so `String.match` finds the leftmost match in
the input.  The matchers below try each start position from the left; at a
given position the pattern pieces are deterministic (greedy `\d+` before a
literal `.` never needs to backtrack, the optional groups are attempted
and skipped exactly as the JS engine does). -/

/-- Match
`(?<major>\d+)\.(?<minor>\d+)\.(?<patch>\d+)(-(?<preRelease>[^+]+))?(\+(?<build>.*))?`
at the head of the input. -/
def semverMatchAt (l : List Char) :
    Option (Nat × Nat × Nat × Option (List Char) × Option (List Char)) :=
  let (d1, r1) := l.span (·.isDigit)
  if d1.isEmpty then none else
  match r1 with
  | '.' :: r2 =>
    let (d2, r3) := r2.span (·.isDigit)
    if d2.isEmpty then none else
    (match r3 with
     | '.' :: r4 =>
       let (d3, r5) := r4.span (·.isDigit)
       if d3.isEmpty then none else
       let pr : Option (List Char) × List Char :=
         match r5 with
         | '-' :: r5' =>
           let (p, rest) := r5'.span (fun c => c ≠ '+')
           if p.isEmpty then (none, r5) else (some p, rest)
         | _ => (none, r5)
       let build : Option (List Char) :=
         match pr.2 with
         | '+' :: r7 => some (r7.takeWhile jsDot)
         | _ => none
       some (digitsVal d1, digitsVal d2, digitsVal d3, pr.1, build)
     | _ => none)
  | _ => none

/-- Leftmost match of the SemVer regex (scan start positions left to
right). -/
def semverScan : List Char →
    Option (Nat × Nat × Nat × Option (List Char) × Option (List Char))
  | [] => semverMatchAt []
  | c :: rest =>
    match semverMatchAt (c :: rest) with
    | some g => some g
    | none => semverScan rest

/-- SemverVersionFormat.parse from src/version-format.ts. -/
def semverParse (s : String) : Option Version :=
  match semverScan s.data with
  | none => none
  | some (ma, mi, pa, pre, b) =>
    some ⟨ma, mi, pa, pre.map List.asString, b.map List.asString⟩

/-- SemverVersionFormat.format from src/version-format.ts. -/
def semverFormatStr (v : Version) : String :=
  let preReleasePart := match v.preRelease with
    | some p => if p.isEmpty then "" else "-" ++ p
    | none => ""
  let buildPart := match v.build with
    | some b => if b.isEmpty then "" else "+" ++ b
    | none => ""
  toString v.major ++ "." ++ toString v.minor ++ "." ++ toString v.patch
    ++ preReleasePart ++ buildPart

/-- Match
`(?<major>\d+)\.(?<minor>\d+)\.(?<patch>\d+)(?:[.-](?<preRelease>.+))?`
at the head of the input. -/
def rubyMatchAt (l : List Char) :
    Option (Nat × Nat × Nat × Option (List Char)) :=
  let (d1, r1) := l.span (·.isDigit)
  if d1.isEmpty then none else
  match r1 with
  | '.' :: r2 =>
    let (d2, r3) := r2.span (·.isDigit)
    if d2.isEmpty then none else
    (match r3 with
     | '.' :: r4 =>
       let (d3, r5) := r4.span (·.isDigit)
       if d3.isEmpty then none else
       let pre : Option (List Char) :=
         match r5 with
         | c :: r5' =>
           if c = '.' || c = '-' then
             let p := r5'.takeWhile jsDot
             if p.isEmpty then none else some p
           else none
         | [] => none
       some (digitsVal d1, digitsVal d2, digitsVal d3, pre)
     | _ => none)
  | _ => none

/-- Leftmost match of the Ruby regex. -/
def rubyScan : List Char → Option (Nat × Nat × Nat × Option (List Char))
  | [] => rubyMatchAt []
  | c :: rest =>
    match rubyMatchAt (c :: rest) with
    | some g => some g
    | none => rubyScan rest

/-- RubyVersionFormat.parse from src/version-format.ts: the Version is
constructed without a build argument. -/
def rubyParse (s : String) : Option Version :=
  match rubyScan s.data with
  | none => none
  | some (ma, mi, pa, pre) => some ⟨ma, mi, pa, pre.map List.asString, none⟩

/-- RubyVersionFormat.format from src/version-format.ts: renders
`major.minor.patch[.preRelease]` and never renders build metadata. -/
def rubyFormatStr (v : Version) : String :=
  let preReleasePart := match v.preRelease with
    | some p => if p.isEmpty then "" else "." ++ p
    | none => ""
  toString v.major ++ "." ++ toString v.minor ++ "." ++ toString v.patch
    ++ preReleasePart

/-- The VersionFormat interface of src/version-format.ts: a parse and a
format operation. -/
structure VersionFormat where
  parse : String → Option Version
  format : Version → String

/-- The SemVer dialect as a VersionFormat. -/
def semverFormat : VersionFormat := ⟨semverParse, semverFormatStr⟩

/-- The Ruby dialect as a VersionFormat. -/
def rubyFormat : VersionFormat := ⟨rubyParse, rubyFormatStr⟩

/-! ### BranchName (src/util/branch-name.ts) -/

/-- The six branch shapes, one per BranchName subclass. -/
inductive BranchShape where
  | autorelease
  | v12default
  | v12component
  | defaultBranch
  | componentBranch
  | groupBranch
deriving DecidableEq, Repr

/-- The fields a parsed BranchName carries, plus which subclass produced
it.  The versionFormat reference of the TS object is passed explicitly to
the operations that use it. -/
structure BranchNameData where
  shape : BranchShape
  component : Option String := none
  targetBranch : Option String := none
  version : Option Version := none
deriving DecidableEq, Repr

/-- A split position for `^release-?(?<component>[\w-.]*)?-v(?<version>[0-9].*)$`
after the literal `release` (and an optional leading `-`): the component
capture is `r.take k`, then the literal `-v`, then a version tail that
starts with a digit and runs to the end of the string without line
terminators. -/
def autoValidAt (r : List Char) (k : Nat) : Prop :=
  (r.take k).all autoClass = true
  ∧ (r.drop k).take 2 = ['-', 'v']
  ∧ r.drop (k + 2) ≠ []
  ∧ ((r.drop (k + 2)).take 1).all (·.isDigit) = true
  ∧ (r.drop (k + 2)).all jsDot = true

instance (r : List Char) (k : Nat) : Decidable (autoValidAt r k) := by
  unfold autoValidAt; infer_instance

/-- Greedy choice of the component split: the JS engine prefers the longest
component capture, i.e. the greatest valid split position. -/
def autoFindK (r : List Char) : Option Nat :=
  let k := Nat.findGreatest (autoValidAt r) r.length
  if autoValidAt r k then some k else none

/-- The captures once a split position is chosen. -/
def autoCaptures (r : List Char) (k : Nat) : List Char × List Char :=
  (r.take k, r.drop (k + 2))

/-- Full match of the Autorelease pattern: the `-?` is greedy, so a match
that consumes the `-` is preferred; within each alternative the component
capture is greedy.  Returns the component and version captures. -/
def autoreleaseMatch (s : List Char) : Option (List Char × List Char) :=
  if s.take 7 = "release".data then
    if (s.drop 7).take 1 = ['-'] then
      match autoFindK (s.drop 8) with
      | some k => some (autoCaptures (s.drop 8) k)
      | none => (autoFindK (s.drop 7)).map (autoCaptures (s.drop 7))
    else (autoFindK (s.drop 7)).map (autoCaptures (s.drop 7))
  else none

/-- The AutoreleaseBranchName constructor: run the pattern, store the
captures, decode the version tail with the supplied format. -/
def autoreleaseCtor (s : List Char) (f : VersionFormat) : BranchNameData :=
  match autoreleaseMatch s with
  | some (c, ver) =>
    ⟨.autorelease, some c.asString, none, f.parse ver.asString⟩
  | none => ⟨.autorelease, none, none, none⟩

/-- AutoreleaseBranchName.matches: excluded when the string starts with the
reserved default-branch literal, else the pattern must match. -/
def autoreleaseMatches (s : List Char) : Bool :=
  if s.take 24 = "release-please--branches".data then false
  else (autoreleaseMatch s).isSome

/-- Greedy split for `(?<branch>.+)SEP(?<component>.+)$` after a literal
front part: position `k` is valid when both captures are nonempty and free
of line terminators and the separator literal sits at `k`. -/
def sepValidAt (sep r : List Char) (k : Nat) : Prop :=
  1 ≤ k ∧ (r.take k).all jsDot = true
  ∧ (r.drop k).take sep.length = sep
  ∧ r.drop (k + sep.length) ≠ []
  ∧ (r.drop (k + sep.length)).all jsDot = true

instance (sep r : List Char) (k : Nat) : Decidable (sepValidAt sep r k) := by
  unfold sepValidAt; infer_instance

/-- Greedy two-capture split: the branch capture is greedy, so the greatest
valid split position wins. -/
def sepSplit (sep r : List Char) : Option (List Char × List Char) :=
  let k := Nat.findGreatest (sepValidAt sep r) r.length
  if sepValidAt sep r k then some (r.take k, r.drop (k + sep.length)) else none

/-- Decode `^release-please--branches--(?<branch>.+)--components--(?<component>.+)$`. -/
def componentDecode (s : List Char) : Option (List Char × List Char) :=
  if s.take 26 = "release-please--branches--".data then
    sepSplit "--components--".data (s.drop 26)
  else none

/-- Decode `^release-please--branches--(?<branch>.+)--groups--(?<group>.+)$`. -/
def groupDecode (s : List Char) : Option (List Char × List Char) :=
  if s.take 26 = "release-please--branches--".data then
    sepSplit "--groups--".data (s.drop 26)
  else none

/-- Decode `^release-please--branches--(?<branch>.+)$`. -/
def defaultDecode (s : List Char) : Option (List Char) :=
  if s.take 26 = "release-please--branches--".data then
    let r := s.drop 26
    if !r.isEmpty && r.all jsDot then some r else none
  else none

/-- Decode `^release-please/branches/(?<branch>[^/]+)/components/(?<component>.+)$`:
the branch capture cannot contain `/`, so the split is at the first `/`. -/
def v12ComponentDecode (s : List Char) : Option (List Char × List Char) :=
  if s.take 24 = "release-please/branches/".data then
    let r := s.drop 24
    let b := r.takeWhile (· ≠ '/')
    let rest := r.drop b.length
    if !b.isEmpty && rest.take 12 = "/components/".data
        && !(rest.drop 12).isEmpty && (rest.drop 12).all jsDot then
      some (b, rest.drop 12)
    else none
  else none

/-- Decode `^release-please/branches/(?<branch>[^/]+)$`. -/
def v12DefaultDecode (s : List Char) : Option (List Char) :=
  if s.take 24 = "release-please/branches/".data then
    let r := s.drop 24
    if !r.isEmpty && r.all (· ≠ '/') then some r else none
  else none

/-- BranchName.parse from src/util/branch-name.ts: try the subclasses in
the order of getAllResourceNames — Autorelease, Component, Group, Default,
V12Component, V12Default — and construct with the first whose `matches`
accepts; an Autorelease whose version tail fails to decode yields none.
The constructors cannot throw in this model, so the try/catch of the
source is a no-op; the logger parameter is dropped with it. -/
def BranchName.parse (s : String) (f : VersionFormat) : Option BranchNameData :=
  if autoreleaseMatches s.data then
    let bn := autoreleaseCtor s.data f
    if bn.version.isNone then none else some bn
  else
  match componentDecode s.data with
  | some (b, c) =>
    some ⟨.componentBranch, some c.asString, some b.asString, none⟩
  | none =>
  match groupDecode s.data with
  | some (b, g) =>
    some ⟨.groupBranch, some g.asString, some b.asString, none⟩
  | none =>
  match defaultDecode s.data with
  | some b => some ⟨.defaultBranch, none, some b.asString, none⟩
  | none =>
  match v12ComponentDecode s.data with
  | some (b, c) =>
    some ⟨.v12component, some c.asString, some b.asString, none⟩
  | none =>
  match v12DefaultDecode s.data with
  | some b => some ⟨.v12default, none, some b.asString, none⟩
  | none => none

/-- getComponent from src/util/branch-name.ts. -/
def BranchNameData.getComponent (bn : BranchNameData) : Option String :=
  bn.component

/-- getVersion from src/util/branch-name.ts. -/
def BranchNameData.getVersion (bn : BranchNameData) : Option Version :=
  bn.version

/-- Rendering of an optional string inside a JS template literal:
`undefined` interpolates as the text "undefined". -/
def tmpl : Option String → String
  | none => "undefined"
  | some s => s

/-- The per-subclass toString overrides.  The Autorelease override formats
the version with the stored versionFormat when both are present (supplied
here as the explicit argument `f`), falls back to Version.toString when
only the version is present, and treats a falsy (empty) component as
absent. -/
def branchToString (bn : BranchNameData) (f : Option VersionFormat) : String :=
  match bn.shape with
  | .autorelease =>
    let versionString : String :=
      match bn.version, f with
      | some v, some fmt => fmt.format v
      | some v, none => v.toStr
      | none, _ => "undefined"
    (match bn.component with
     | some c =>
       if c.isEmpty then "release-v" ++ versionString
       else "release-" ++ c ++ "-v" ++ versionString
     | none => "release-v" ++ versionString)
  | .v12default => "release-please/branches/" ++ tmpl bn.targetBranch
  | .v12component =>
    "release-please/branches/" ++ tmpl bn.targetBranch ++ "/components/"
      ++ tmpl bn.component
  | .defaultBranch => "release-please--branches--" ++ tmpl bn.targetBranch
  | .componentBranch =>
    "release-please--branches--" ++ tmpl bn.targetBranch ++ "--components--"
      ++ tmpl bn.component
  | .groupBranch =>
    "release-please--branches--" ++ tmpl bn.targetBranch ++ "--groups--"
      ++ tmpl bn.component

/-- The branch string built by BranchName.ofVersion. -/
def ofVersionStr (v : Version) (f : VersionFormat) : String :=
  "release-v" ++ f.format v

/-- BranchName.ofVersion: constructs an AutoreleaseBranchName from the
built string, which re-runs the pattern in the constructor. -/
def BranchName.ofVersion (v : Version) (f : VersionFormat) : BranchNameData :=
  autoreleaseCtor (ofVersionStr v f).data f

/-- The branch string built by BranchName.ofComponentVersion. -/
def ofComponentVersionStr (p : String) (v : Version) (f : VersionFormat) : String :=
  "release-" ++ p ++ "-v" ++ f.format v

/-- BranchName.ofComponentVersion, likewise re-running the pattern. -/
def BranchName.ofComponentVersion (p : String) (v : Version) (f : VersionFormat) :
    BranchNameData :=
  autoreleaseCtor (ofComponentVersionStr p v f).data f

/-- Collapse every run of consecutive dashes to a single dash, as the
second replace of safeBranchName does. -/
def collapseDashes : List Char → List Char
  | [] => []
  | [c] => [c]
  | a :: b :: rest =>
    if a = '-' && b = '-' then collapseDashes (b :: rest)
    else a :: collapseDashes (b :: rest)

/-- Two adjacent dashes occur somewhere in the list. -/
def hasDoubleDash : List Char → Bool
  | a :: b :: rest => (a = '-' && b = '-') || hasDoubleDash (b :: rest)
  | _ => false

/-- safeBranchName from src/util/branch-name.ts: replace every character
outside `[\w\d]` with a dash, then collapse dash runs. -/
def safeBranchName (s : String) : String :=
  (collapseDashes (s.data.map (fun c => if isWordChar c then c else '-'))).asString

/-- The branch string built by BranchName.ofGroupTargetBranch. -/
def ofGroupTargetBranchStr (group targetBranch : String) : String :=
  "release-please--branches--" ++ targetBranch ++ "--groups--"
    ++ safeBranchName group

/-! ### TagName (src/util/tag-name.ts) -/

/-- The TagName data class: a required version, an optional component, a
separator (defaulted to `-` when the parsed capture is absent) and an
includeV flag. -/
structure TagNameData where
  version : Version
  component : Option String := none
  separator : String := "-"
  includeV : Bool := true
deriving DecidableEq, Repr

/-- The raw captures of the tag pattern
`^((?<component>.*)(?<separator>[^a-zA-Z0-9]))?(?<v>v)?(?<version>\d+\.\d+\.\d+.*)$`. -/
structure TagMatch where
  component : Option (List Char)
  separator : Option (List Char)
  hasV : Bool
  version : List Char
deriving DecidableEq, Repr

/-- Does `\d+\.\d+\.\d+.*$` match this entire suffix?  The three digit runs
with dots at the front, and no line terminator anywhere (the `.*` must
reach the `$`). -/
def tagVerOk (l : List Char) : Bool :=
  (let (d1, r1) := l.span (·.isDigit)
   !d1.isEmpty &&
   match r1 with
   | '.' :: r2 =>
     let (d2, r3) := r2.span (·.isDigit)
     !d2.isEmpty &&
     (match r3 with
      | '.' :: r4 => !(r4.takeWhile (·.isDigit)).isEmpty
      | _ => false)
   | _ => false)
  && l.all jsDot

/-- The optional `(?<v>v)?` followed by the version tail: the greedy `?`
prefers consuming a leading `v`. -/
def tagTryV (l : List Char) : Option (Bool × List Char) :=
  match l with
  | 'v' :: rest => if tagVerOk rest then some (true, rest) else
      if tagVerOk l then some (false, l) else none
  | _ => if tagVerOk l then some (false, l) else none

/-- A valid component split at `k`: component capture `s.take k` (no line
terminators), a single non-alphanumeric separator char at `k`, and a match
of the rest. -/
def tagValidAt (s : List Char) (k : Nat) : Prop :=
  (s.take k).all jsDot = true
  ∧ ((s.drop k).take 1).all (fun c => !c.isAlphanum) = true
  ∧ s.drop k ≠ []
  ∧ (tagTryV (s.drop (k + 1))).isSome = true

instance (s : List Char) (k : Nat) : Decidable (tagValidAt s k) := by
  unfold tagValidAt; infer_instance

/-- Full match of the tag pattern: the optional component group is greedy
(longest component first); if no split works the group is skipped. -/
def tagMatchFn (s : List Char) : Option TagMatch :=
  let k := Nat.findGreatest (tagValidAt s) s.length
  if tagValidAt s k then
    match s.drop k with
    | c :: rest =>
      (match tagTryV rest with
       | some (hv, ver) => some ⟨some (s.take k), some [c], hv, ver⟩
       | none => none)
    | [] => none
  else
    match tagTryV s with
    | some (hv, ver) => some ⟨none, none, hv, ver⟩
    | none => none

/-- TagName.extractComponent: run the pattern, return only the component
capture, without invoking any VersionFormat. -/
def TagName.extractComponent (s : String) : Option String :=
  match tagMatchFn s.data with
  | some m => m.component.map List.asString
  | none => none

/-- TagName.parse from src/util/tag-name.ts: match the pattern, decode the
version capture with the supplied format, fail (none) when either step
fails.  The undefined separator capture is replaced by the constructor
default `-`. -/
def TagName.parse (s : String) (f : VersionFormat) : Option TagNameData :=
  match tagMatchFn s.data with
  | some m =>
    (match f.parse m.version.asString with
     | some v =>
       some ⟨v, m.component.map List.asString,
         (m.separator.map List.asString).getD "-", m.hasV⟩
     | none => none)
  | none => none

/-- TagName.toString: component (when truthy) and separator, the literal
`v` when includeV, then always the canonical Version.toString rendering. -/
def TagNameData.toStr (t : TagNameData) : String :=
  match t.component with
  | some c =>
    if c.isEmpty then (if t.includeV then "v" else "") ++ t.version.toStr
    else c ++ t.separator ++ (if t.includeV then "v" else "") ++ t.version.toStr
  | none => (if t.includeV then "v" else "") ++ t.version.toStr

/-! ### The legacy static Version.parse (src/version.ts)

The optional custom RegExp parameter is modelled as an oracle producing
the numeric captures directly (the shape the code reads out of
`match.groups` and feeds through `Number`).  The outcome pairs the
throwing result (`Except`) with the list of console warnings emitted. -/

/-- An arbitrary custom version regex, abstracted as what the code
extracts from its match: the three numeric groups and the two optional
string groups. -/
def CustomRegex : Type := String → Option (Nat × Nat × Nat × Option String × Option String)

/-- The deprecation warning text printed by Version.parse when the custom
pattern is supplied. -/
def deprecationWarning : String :=
  "Version.parse versionRegex parameter is deprecated. " ++
    "Implement the VersionFormat interface for custom version formats."

/-- The deprecated branch of Version.parse: warn, match with the custom
pattern, throw (error) when it finds no match. -/
def parseWithRegex (s : String) (r : CustomRegex) :
    Except String Version × List String :=
  match r s with
  | none => (.error ("unable to parse version string: " ++ s), [deprecationWarning])
  | some (ma, mi, pa, pre, b) => (.ok ⟨ma, mi, pa, pre, b⟩, [deprecationWarning])

/-- The modern branch of Version.parse: delegate to SemverVersionFormat,
throw (error) when it yields nothing. -/
def parseDefault (s : String) : Except String Version × List String :=
  match semverParse s with
  | none => (.error ("unable to parse version string: " ++ s), [])
  | some v => (.ok v, [])

/-- Version.parse from src/version.ts: with a custom pattern, warn and use
it; without one, use the SemVer dialect.  Both branches throw on no
match. -/
def Version.parseStatic (s : String) (rx : Option CustomRegex) :
    Except String Version × List String :=
  match rx with
  | some r => parseWithRegex s r
  | none => parseDefault s

/-! ### Order lemmas for Version.compare -/

theorem strCmp_range : ∀ a b : List Char, strCmp a b = -1 ∨ strCmp a b = 0 ∨ strCmp a b = 1
  | [], [] => by simp [strCmp]
  | [], _ :: _ => by simp [strCmp]
  | _ :: _, [] => by simp [strCmp]
  | a :: as, b :: bs => by
    unfold strCmp
    split_ifs with h1 h2
    · simp
    · simp
    · exact strCmp_range as bs

theorem strCmp_eq_zero_iff : ∀ a b : List Char, strCmp a b = 0 ↔ a = b
  | [], [] => by simp [strCmp]
  | [], _ :: _ => by simp [strCmp]
  | _ :: _, [] => by simp [strCmp]
  | a :: as, b :: bs => by
    unfold strCmp
    rcases lt_trichotomy a b with h | h | h
    · rw [if_pos h]
      constructor
      · intro hh; exact absurd hh (by decide)
      · intro hh
        injection hh with h1 h2
        exact absurd h (by simp [h1])
    · subst h
      rw [if_neg (lt_irrefl a), if_neg (lt_irrefl a), strCmp_eq_zero_iff as bs]
      simp
    · rw [if_neg (lt_asymm h), if_pos h]
      constructor
      · intro hh; exact absurd hh (by decide)
      · intro hh
        injection hh with h1 h2
        exact absurd h (by simp [h1])

theorem strCmp_neg : ∀ a b : List Char, strCmp a b = - strCmp b a
  | [], [] => by simp [strCmp]
  | [], _ :: _ => by simp [strCmp]
  | _ :: _, [] => by simp [strCmp]
  | a :: as, b :: bs => by
    unfold strCmp
    rcases lt_trichotomy a b with h | h | h
    · rw [if_pos h, if_neg (lt_asymm h), if_pos h]
    · subst h
      rw [if_neg (lt_irrefl a), if_neg (lt_irrefl a), if_neg (lt_irrefl a),
        if_neg (lt_irrefl a)]
      exact strCmp_neg as bs
    · rw [if_neg (lt_asymm h), if_pos h, if_pos h]
      simp

theorem strCmp_trans : ∀ a b c : List Char,
    strCmp a b = -1 → strCmp b c = -1 → strCmp a c = -1
  | [], b, [] => by
    intro h1 h2
    cases b with
    | nil => exact absurd h1 (by decide)
    | cons x xs => exact absurd h2 (by simp [strCmp])
  | [], _, _ :: _ => by intro _ _; rfl
  | _ :: _, [], _ => by intro h1 _; exact absurd h1 (by simp [strCmp])
  | a :: as, b :: bs, [] => by intro _ h2; exact absurd h2 (by simp [strCmp])
  | a :: as, b :: bs, c :: cs => by
    unfold strCmp
    intro h1 h2
    rcases lt_trichotomy a b with hab | hab | hab
    · rcases lt_trichotomy b c with hbc | hbc | hbc
      · rw [if_pos (lt_trans hab hbc)]
      · subst hbc; rw [if_pos hab]
      · rw [if_neg (lt_asymm hbc), if_pos hbc] at h2
        exact absurd h2 (by decide)
    · subst hab
      rcases lt_trichotomy a c with hac | hac | hac
      · rw [if_pos hac]
      · subst hac
        rw [if_neg (lt_irrefl a), if_neg (lt_irrefl a)] at h1 h2 ⊢
        exact strCmp_trans as bs cs h1 h2
      · rw [if_neg (lt_asymm hac), if_pos hac] at h2
        exact absurd h2 (by decide)
    · rw [if_neg (lt_asymm hab), if_pos hab] at h1
      exact absurd h1 (by decide)

theorem natCmp_eq_neg_one_iff (x y : Nat) : natCmp x y = -1 ↔ x < y := by
  unfold natCmp; split_ifs <;> simp_all

theorem natCmp_eq_one_iff (x y : Nat) : natCmp x y = 1 ↔ y < x := by
  unfold natCmp; split_ifs <;> simp_all <;> omega

theorem natCmp_eq_zero_iff (x y : Nat) : natCmp x y = 0 ↔ x = y := by
  unfold natCmp; split_ifs <;> simp_all <;> omega

theorem natCmp_range (x y : Nat) : natCmp x y = -1 ∨ natCmp x y = 0 ∨ natCmp x y = 1 := by
  unfold natCmp; split_ifs <;> simp

theorem natCmp_neg (x y : Nat) : natCmp x y = - natCmp y x := by
  unfold natCmp; split_ifs <;> first | rfl | omega

theorem natCmp_trans (x y z : Nat) (h1 : natCmp x y = -1) (h2 : natCmp y z = -1) :
    natCmp x z = -1 := by
  rw [natCmp_eq_neg_one_iff] at h1 h2 ⊢
  exact lt_trans h1 h2

/-! Case-analysis lemmas for compareIdent, keyed by whether each side is a
purely numeric identifier. -/

theorem compareIdent_num_num {a b : List Char} (ha : isNumericIdent a = true)
    (hb : isNumericIdent b = true) :
    compareIdent a b = natCmp (digitsVal a) (digitsVal b) := by
  unfold compareIdent
  rw [ha, hb]
  rfl

theorem compareIdent_num_str {a b : List Char} (ha : isNumericIdent a = true)
    (hb : isNumericIdent b = false) : compareIdent a b = -1 := by
  have hne : a ≠ b := by intro h; rw [h] at ha; rw [ha] at hb; exact absurd hb (by decide)
  unfold compareIdent
  rw [ha, hb]
  simp [hne]

theorem compareIdent_str_num {a b : List Char} (ha : isNumericIdent a = false)
    (hb : isNumericIdent b = true) : compareIdent a b = 1 := by
  have hne : a ≠ b := by intro h; rw [h] at ha; rw [hb] at ha; exact absurd ha (by decide)
  unfold compareIdent
  rw [ha, hb]
  simp [hne]

theorem compareIdent_str_str {a b : List Char} (ha : isNumericIdent a = false)
    (hb : isNumericIdent b = false) : compareIdent a b = strCmp a b := by
  unfold compareIdent
  rw [ha, hb]
  simp only [Bool.and_self, Bool.false_eq_true, if_false]
  split_ifs with h
  · exact ((strCmp_eq_zero_iff a b).mpr h).symm
  · rfl

theorem compareIdent_range (a b : List Char) :
    compareIdent a b = -1 ∨ compareIdent a b = 0 ∨ compareIdent a b = 1 := by
  cases ha : isNumericIdent a <;> cases hb : isNumericIdent b
  · rw [compareIdent_str_str ha hb]; exact strCmp_range a b
  · rw [compareIdent_str_num ha hb]; simp
  · rw [compareIdent_num_str ha hb]; simp
  · rw [compareIdent_num_num ha hb]; exact natCmp_range _ _

theorem compareIdent_neg (a b : List Char) : compareIdent a b = - compareIdent b a := by
  cases ha : isNumericIdent a <;> cases hb : isNumericIdent b
  · rw [compareIdent_str_str ha hb, compareIdent_str_str hb ha]; exact strCmp_neg a b
  · rw [compareIdent_str_num ha hb, compareIdent_num_str hb ha]; rfl
  · rw [compareIdent_num_str ha hb, compareIdent_str_num hb ha]
  · rw [compareIdent_num_num ha hb, compareIdent_num_num hb ha]; exact natCmp_neg _ _

theorem compareIdent_eq_zero_iff (a b : List Char) :
    compareIdent a b = 0 ↔
      (isNumericIdent a = true ∧ isNumericIdent b = true ∧ digitsVal a = digitsVal b)
      ∨ (isNumericIdent a = false ∧ isNumericIdent b = false ∧ a = b) := by
  cases ha : isNumericIdent a <;> cases hb : isNumericIdent b
  · rw [compareIdent_str_str ha hb, strCmp_eq_zero_iff]; simp
  · rw [compareIdent_str_num ha hb]; simp
  · rw [compareIdent_num_str ha hb]; simp
  · rw [compareIdent_num_num ha hb, natCmp_eq_zero_iff]; simp

theorem compareIdent_congr {a b : List Char} (h : compareIdent a b = 0) (c : List Char) :
    compareIdent a c = compareIdent b c := by
  rcases (compareIdent_eq_zero_iff a b).mp h with ⟨ha, hb, hv⟩ | ⟨ha, hb, he⟩
  · cases hc : isNumericIdent c
    · rw [compareIdent_num_str ha hc, compareIdent_num_str hb hc]
    · rw [compareIdent_num_num ha hc, compareIdent_num_num hb hc, hv]
  · rw [he]

theorem compareIdent_trans {a b c : List Char}
    (h1 : compareIdent a b = -1) (h2 : compareIdent b c = -1) :
    compareIdent a c = -1 := by
  cases ha : isNumericIdent a <;> cases hb : isNumericIdent b <;>
    cases hc : isNumericIdent c
  · -- all non-numeric
    rw [compareIdent_str_str ha hb] at h1
    rw [compareIdent_str_str hb hc] at h2
    rw [compareIdent_str_str ha hc]
    exact strCmp_trans a b c h1 h2
  · -- a, b non-numeric, c numeric: compareIdent b c = 1
    rw [compareIdent_str_num hb hc] at h2
    exact absurd h2 (by decide)
  · -- a non-numeric, b numeric: compareIdent a b = 1
    rw [compareIdent_str_num ha hb] at h1
    exact absurd h1 (by decide)
  · rw [compareIdent_str_num ha hb] at h1
    exact absurd h1 (by decide)
  · -- a numeric, b, c non-numeric
    exact compareIdent_num_str ha hc
  · -- a numeric, b non-numeric, c numeric: compareIdent b c = 1
    rw [compareIdent_str_num hb hc] at h2
    exact absurd h2 (by decide)
  · -- a, b numeric, c non-numeric
    exact compareIdent_num_str ha hc
  · -- all numeric
    rw [compareIdent_num_num ha hb, natCmp_eq_neg_one_iff] at h1
    rw [compareIdent_num_num hb hc, natCmp_eq_neg_one_iff] at h2
    rw [compareIdent_num_num ha hc, natCmp_eq_neg_one_iff]
    exact lt_trans h1 h2

theorem compareIdent_refl (a : List Char) : compareIdent a a = 0 := by
  cases ha : isNumericIdent a
  · rw [compareIdent_str_str ha ha]
    exact (strCmp_eq_zero_iff a a).mpr rfl
  · rw [compareIdent_num_num ha ha]
    exact (natCmp_eq_zero_iff _ _).mpr rfl

theorem compareIdentList_refl : ∀ x : List (List Char), compareIdentList x x = 0
  | [] => rfl
  | a :: as => by
    unfold compareIdentList
    rw [if_pos (compareIdent_refl a)]
    exact compareIdentList_refl as

theorem compareIdentList_range : ∀ x y : List (List Char),
    compareIdentList x y = -1 ∨ compareIdentList x y = 0 ∨ compareIdentList x y = 1
  | [], [] => by simp [compareIdentList]
  | [], _ :: _ => by simp [compareIdentList]
  | _ :: _, [] => by simp [compareIdentList]
  | a :: as, b :: bs => by
    unfold compareIdentList
    by_cases h : compareIdent a b = 0
    · rw [if_pos h]
      exact compareIdentList_range as bs
    · rw [if_neg h]
      rcases compareIdent_range a b with h' | h' | h'
      · exact Or.inl h'
      · exact absurd h' h
      · exact Or.inr (Or.inr h')

theorem compareIdentList_neg : ∀ x y : List (List Char),
    compareIdentList x y = - compareIdentList y x
  | [], [] => by simp [compareIdentList]
  | [], _ :: _ => by simp [compareIdentList]
  | _ :: _, [] => by simp [compareIdentList]
  | a :: as, b :: bs => by
    unfold compareIdentList
    by_cases h : compareIdent a b = 0
    · have h' : compareIdent b a = 0 := by
        rw [compareIdent_neg b a, h]
        rfl
      rw [if_pos h, if_pos h']
      exact compareIdentList_neg as bs
    · have h' : ¬ compareIdent b a = 0 := by
        intro hh
        rw [compareIdent_neg a b, hh] at h
        exact h rfl
      rw [if_neg h, if_neg h']
      exact compareIdent_neg a b

theorem compareIdentList_trans : ∀ x y z : List (List Char),
    compareIdentList x y = -1 → compareIdentList y z = -1 → compareIdentList x z = -1
  | [], y, [] => by
    intro h1 h2
    cases y with
    | nil => exact absurd h1 (by decide)
    | cons b bs => exact absurd h2 (by simp [compareIdentList])
  | [], _, _ :: _ => by intro _ _; rfl
  | _ :: _, [], _ => by intro h1 _; exact absurd h1 (by simp [compareIdentList])
  | _ :: _, _ :: _, [] => by intro _ h2; exact absurd h2 (by simp [compareIdentList])
  | a :: as, b :: bs, c :: cs => by
    unfold compareIdentList
    intro h1 h2
    by_cases hab : compareIdent a b = 0 <;> by_cases hbc : compareIdent b c = 0
    · rw [if_pos hab] at h1
      rw [if_pos hbc] at h2
      have hac : compareIdent a c = 0 := by rw [compareIdent_congr hab c, hbc]
      rw [if_pos hac]
      exact compareIdentList_trans as bs cs h1 h2
    · rw [if_pos hab] at h1
      rw [if_neg hbc] at h2
      have hac : compareIdent a c = -1 := by rw [compareIdent_congr hab c]; exact h2
      rw [if_neg (by rw [hac]; decide), hac]
    · rw [if_neg hab] at h1
      rw [if_pos hbc] at h2
      have hcb : compareIdent c b = 0 := by
        rw [compareIdent_neg c b, hbc]
        rfl
      have hac : compareIdent a c = -1 := by
        rw [compareIdent_neg a c, compareIdent_congr hcb a, ← compareIdent_neg a b, h1]
      rw [if_neg (by rw [hac]; decide), hac]
    · rw [if_neg hab] at h1
      rw [if_neg hbc] at h2
      have hac := compareIdent_trans h1 h2
      rw [if_neg (by rw [hac]; decide), hac]

theorem preCmp_range (x y : Option (List (List Char))) :
    preCmp x y = -1 ∨ preCmp x y = 0 ∨ preCmp x y = 1 := by
  cases x <;> cases y
  · simp [preCmp]
  · simp [preCmp]
  · simp [preCmp]
  · exact compareIdentList_range _ _

theorem preCmp_neg (x y : Option (List (List Char))) : preCmp x y = - preCmp y x := by
  cases x <;> cases y
  · simp [preCmp]
  · simp [preCmp]
  · simp [preCmp]
  · exact compareIdentList_neg _ _

theorem preCmp_trans (x y z : Option (List (List Char)))
    (h1 : preCmp x y = -1) (h2 : preCmp y z = -1) : preCmp x z = -1 := by
  cases x <;> cases y <;> cases z <;>
    simp only [preCmp] at h1 h2 ⊢ <;>
    first
      | rfl
      | exact absurd h1 (by decide)
      | exact absurd h2 (by decide)
      | exact compareIdentList_trans _ _ _ h1 h2

/-- Lexicographic combination step: negation symmetry. -/
theorem lexNeg {m m' t t' : Int} (hm : m = -m') (ht : m = 0 → t = -t') :
    (if m ≠ 0 then m else t) = -(if m' ≠ 0 then m' else t') := by
  by_cases h : m' = 0
  · have hz : m = 0 := by rw [hm, h]; rfl
    rw [if_neg (by simp [hz]), if_neg (by simp [h])]
    exact ht hz
  · have hm0 : m ≠ 0 := by rw [hm]; simpa using h
    rw [if_pos (by simpa using hm0), if_pos (by simpa using h)]
    exact hm

/-- Lexicographic combination step: transitivity of the minus-one case. -/
theorem lexTrans {m1 m2 m3 t1 t2 t3 : Int}
    (h0a : m1 = 0 → m3 = m2) (h0b : m2 = 0 → m3 = m1)
    (htr : m1 = -1 → m2 = -1 → m3 = -1)
    (ttr : m1 = 0 → m2 = 0 → t1 = -1 → t2 = -1 → t3 = -1)
    (h1 : (if m1 ≠ 0 then m1 else t1) = -1)
    (h2 : (if m2 ≠ 0 then m2 else t2) = -1) :
    (if m3 ≠ 0 then m3 else t3) = -1 := by
  by_cases e1 : m1 = 0 <;> by_cases e2 : m2 = 0
  · have e3 : m3 = 0 := by rw [h0a e1, e2]
    rw [if_neg (by simp [e1])] at h1
    rw [if_neg (by simp [e2])] at h2
    rw [if_neg (by simp [e3])]
    exact ttr e1 e2 h1 h2
  · rw [if_pos (by simpa using e2)] at h2
    have e3 : m3 = -1 := by rw [h0a e1]; exact h2
    rw [if_pos (by simp [e3]), e3]
  · rw [if_pos (by simpa using e1)] at h1
    have e3 : m3 = -1 := by rw [h0b e2]; exact h1
    rw [if_pos (by simp [e3]), e3]
  · rw [if_pos (by simpa using e1)] at h1
    rw [if_pos (by simpa using e2)] at h2
    have e3 := htr h1 h2
    rw [if_pos (by simp [e3]), e3]

theorem versionCompare_range (a b : Version) :
    a.compare b = -1 ∨ a.compare b = 0 ∨ a.compare b = 1 := by
  unfold Version.compare
  split_ifs
  · exact natCmp_range _ _
  · exact natCmp_range _ _
  · exact natCmp_range _ _
  · exact preCmp_range _ _

theorem versionCompare_neg (a b : Version) : a.compare b = - b.compare a := by
  unfold Version.compare
  refine lexNeg (natCmp_neg _ _) (fun hM => ?_)
  refine lexNeg (natCmp_neg _ _) (fun hN => ?_)
  refine lexNeg (natCmp_neg _ _) (fun hP => ?_)
  exact preCmp_neg _ _

theorem versionCompare_trans (a b c : Version)
    (h1 : a.compare b = -1) (h2 : b.compare c = -1) : a.compare c = -1 := by
  unfold Version.compare at h1 h2 ⊢
  refine lexTrans ?_ ?_ (natCmp_trans _ _ _) ?_ h1 h2
  · intro h; rw [show a.major = b.major from (natCmp_eq_zero_iff _ _).mp h]
  · intro h; rw [← show b.major = c.major from (natCmp_eq_zero_iff _ _).mp h]
  intro _ _ g1 g2
  refine lexTrans ?_ ?_ (natCmp_trans _ _ _) ?_ g1 g2
  · intro h; rw [show a.minor = b.minor from (natCmp_eq_zero_iff _ _).mp h]
  · intro h; rw [← show b.minor = c.minor from (natCmp_eq_zero_iff _ _).mp h]
  intro _ _ f1 f2
  refine lexTrans ?_ ?_ (natCmp_trans _ _ _) ?_ f1 f2
  · intro h; rw [show a.patch = b.patch from (natCmp_eq_zero_iff _ _).mp h]
  · intro h; rw [← show b.patch = c.patch from (natCmp_eq_zero_iff _ _).mp h]
  intro _ _ e1 e2
  exact preCmp_trans _ _ _ e1 e2

theorem versionCompare_ignores_build (a b : Version)
    (hM : a.major = b.major) (hN : a.minor = b.minor) (hP : a.patch = b.patch)
    (hPre : a.preRelease = b.preRelease) : a.compare b = 0 := by
  unfold Version.compare
  have e1 : natCmp a.major b.major = 0 := (natCmp_eq_zero_iff _ _).mpr hM
  have e2 : natCmp a.minor b.minor = 0 := (natCmp_eq_zero_iff _ _).mpr hN
  have e3 : natCmp a.patch b.patch = 0 := (natCmp_eq_zero_iff _ _).mpr hP
  have e4 : preIds a = preIds b := by unfold preIds; rw [hPre]
  rw [if_neg (by simp [e1]), if_neg (by simp [e2]), if_neg (by simp [e3]), e4]
  cases preIds b with
  | none => rfl
  | some l => exact compareIdentList_refl l

/-! ### List split helpers for the pattern lemmas -/

theorem take_concat_left {l1 l2 : List Char} {n : Nat} (h : n = l1.length) :
    (l1 ++ l2).take n = l1 := by
  subst h; exact List.take_left l1 l2

theorem drop_concat_left {l1 l2 : List Char} {n : Nat} (h : n = l1.length) :
    (l1 ++ l2).drop n = l2 := by
  subst h; exact List.drop_left l1 l2

theorem take_concat_of_le {l1 l2 : List Char} {n : Nat} (h : n ≤ l1.length) :
    (l1 ++ l2).take n = l1.take n := by
  rw [List.take_append_eq_append_take, Nat.sub_eq_zero_of_le h, List.take_zero,
    List.append_nil]

theorem drop_concat_add (l1 l2 : List Char) (n m : Nat) (h : n = l1.length + m) :
    (l1 ++ l2).drop n = l2.drop m := by
  subst h
  rw [List.drop_append_eq_append_drop, List.drop_eq_nil_of_le (by omega),
    Nat.add_sub_cancel_left, List.nil_append]

/-! ### Lemmas about the Autorelease pattern match -/

theorem drop_two_cons (a b : Char) (l : List Char) (m : Nat) :
    List.drop (2 + m) (a :: b :: l) = l.drop m := by
  rw [show 2 + m = (m + 1) + 1 by omega, List.drop_succ_cons, List.drop_succ_cons]

theorem autoValid_le {r : List Char} {k : Nat} (h : autoValidAt r k) : k ≤ r.length := by
  by_contra hlt
  push_neg at hlt
  have hd : r.drop k = [] := List.drop_eq_nil_of_le (le_of_lt hlt)
  have := h.2.1
  rw [hd] at this
  exact absurd this (by decide)

theorem autoFindK_eq_none {r : List Char} (h : ∀ k, ¬ autoValidAt r k) :
    autoFindK r = none := by
  unfold autoFindK
  rw [if_neg (h _)]

theorem autoFindK_eq_some {r : List Char} {k : Nat} (hv : autoValidAt r k)
    (hmax : ∀ j, k < j → ¬ autoValidAt r j) : autoFindK r = some k := by
  unfold autoFindK
  have hk : Nat.findGreatest (autoValidAt r) r.length = k := by
    rw [Nat.findGreatest_eq_iff]
    exact ⟨autoValid_le hv, fun _ => hv, fun n hn _ => hmax n hn⟩
  rw [hk, if_pos hv]

/-- The Autorelease pattern on `release-v<T>`: when `T` starts with a digit,
contains no line terminator and no `-v`, the only valid split is at 0:
empty component and version capture `T`. -/
theorem autoreleaseMatch_noComponent {T : List Char} (hne : T ≠ [])
    (hd : (T.take 1).all (·.isDigit) = true) (hdot : T.all jsDot = true)
    (hnv : ∀ j, ¬ occursAt ['-', 'v'] T j) :
    autoreleaseMatch ("release-v".data ++ T) = some ([], T) := by
  have hA : autoFindK ('v' :: T) = none := by
    apply autoFindK_eq_none
    intro k hv
    have h2 := hv.2.1
    cases k with
    | zero =>
      rw [List.drop_zero] at h2
      cases T with
      | nil => exact absurd h2 (by decide)
      | cons c cs =>
        rw [List.take_succ_cons] at h2
        injection h2 with hx _
        exact absurd hx (by decide)
    | succ j =>
      rw [List.drop_succ_cons] at h2
      exact hnv j h2
  have hB : autoFindK ('-' :: 'v' :: T) = some 0 := by
    apply autoFindK_eq_some
    · refine ⟨rfl, ?_, ?_, ?_, ?_⟩
      · show ('-' :: 'v' :: T).take 2 = ['-', 'v']
        rw [List.take_succ_cons, List.take_succ_cons, List.take_zero]
      · show ('-' :: 'v' :: T).drop 2 ≠ []
        rw [List.drop_succ_cons, List.drop_succ_cons, List.drop_zero]
        exact hne
      · show ((('-' :: 'v' :: T).drop 2).take 1).all (·.isDigit) = true
        rw [List.drop_succ_cons, List.drop_succ_cons, List.drop_zero]
        exact hd
      · show (('-' :: 'v' :: T).drop 2).all jsDot = true
        rw [List.drop_succ_cons, List.drop_succ_cons, List.drop_zero]
        exact hdot
    · intro j hj hv
      have h2 := hv.2.1
      match j, hj with
      | 1, _ =>
        rw [List.drop_succ_cons, List.drop_zero] at h2
        cases T with
        | nil => exact absurd h2 (by decide)
        | cons c cs =>
          rw [List.take_succ_cons] at h2
          injection h2 with hx _
          exact absurd hx (by decide)
      | (m + 2), _ =>
        rw [List.drop_succ_cons, List.drop_succ_cons] at h2
        exact hnv m h2
  have e7 : ("release-v".data ++ T).take 7 = "release".data := rfl
  have e71 : (("release-v".data ++ T).drop 7).take 1 = ['-'] := rfl
  have e8 : ("release-v".data ++ T).drop 8 = 'v' :: T := rfl
  have e7d : ("release-v".data ++ T).drop 7 = '-' :: 'v' :: T := rfl
  unfold autoreleaseMatch
  rw [if_pos e7, if_pos e71, e8, hA, e7d, hB]
  rfl

/-- The Autorelease pattern on `release-<p>-v<T>` for a nonempty component
`p` of class characters: the greedy split is at the last `-v`, i.e. the
component capture is exactly `p`. -/
theorem autoreleaseMatch_component {p T : List Char} (hp : p ≠ [])
    (hpc : p.all autoClass = true) (hne : T ≠ [])
    (hd : (T.take 1).all (·.isDigit) = true) (hdot : T.all jsDot = true)
    (hnv : ∀ j, ¬ occursAt ['-', 'v'] T j) :
    autoreleaseMatch ("release-".data ++ (p ++ ('-' :: 'v' :: T))) = some (p, T) := by
  have hB : autoFindK (p ++ ('-' :: 'v' :: T)) = some p.length := by
    apply autoFindK_eq_some
    · refine ⟨?_, ?_, ?_, ?_, ?_⟩
      · rw [take_concat_left rfl]; exact hpc
      · rw [drop_concat_left rfl, List.take_succ_cons, List.take_succ_cons,
          List.take_zero]
      · rw [drop_concat_add p ('-' :: 'v' :: T) (p.length + 2) 2 rfl, List.drop_succ_cons,
          List.drop_succ_cons, List.drop_zero]
        exact hne
      · rw [drop_concat_add p ('-' :: 'v' :: T) (p.length + 2) 2 rfl, List.drop_succ_cons,
          List.drop_succ_cons, List.drop_zero]
        exact hd
      · rw [drop_concat_add p ('-' :: 'v' :: T) (p.length + 2) 2 rfl, List.drop_succ_cons,
          List.drop_succ_cons, List.drop_zero]
        exact hdot
    · intro j hj hv
      have h2 := hv.2.1
      rcases Nat.lt_or_ge j (p.length + 2) with hcase | hcase
      · -- j = p.length + 1
        have hj1 : j = p.length + 1 := by omega
        subst hj1
        rw [drop_concat_add p ('-' :: 'v' :: T) (p.length + 1) 1 rfl, List.drop_succ_cons,
          List.drop_zero] at h2
        cases T with
        | nil => exact absurd h2 (by decide)
        | cons c cs =>
          rw [List.take_succ_cons] at h2
          injection h2 with hx _
          exact absurd hx (by decide)
      · -- j ≥ p.length + 2: a `-v` occurrence inside T
        obtain ⟨m, hm⟩ : ∃ m, j = p.length + 2 + m := ⟨j - (p.length + 2), by omega⟩
        subst hm
        rw [drop_concat_add p ('-' :: 'v' :: T) (p.length + 2 + m) (2 + m) (by omega),
          drop_two_cons] at h2
        exact hnv m h2
  have e7 : ("release-".data ++ (p ++ ('-' :: 'v' :: T))).take 7 = "release".data := rfl
  have e71 : (("release-".data ++ (p ++ ('-' :: 'v' :: T))).drop 7).take 1 = ['-'] := rfl
  have e8 : ("release-".data ++ (p ++ ('-' :: 'v' :: T))).drop 8 = p ++ ('-' :: 'v' :: T) := rfl
  unfold autoreleaseMatch
  rw [if_pos e7, if_pos e71, e8, hB]
  show some (autoCaptures (p ++ ('-' :: 'v' :: T)) p.length) = some (p, T)
  unfold autoCaptures
  rw [take_concat_left rfl, drop_concat_add p ('-' :: 'v' :: T) (p.length + 2) 2 rfl,
    List.drop_succ_cons, List.drop_succ_cons, List.drop_zero]

/-! ### Lemmas about the two-capture branch patterns -/

theorem sepValid_le {sep r : List Char} {k : Nat} (h : sepValidAt sep r k) :
    k ≤ r.length := by
  by_contra hlt
  push_neg at hlt
  have hd : r.drop (k + sep.length) = [] := List.drop_eq_nil_of_le (by omega)
  exact absurd hd h.2.2.2.1

theorem sepSplit_some {sep r : List Char} {k : Nat} (hv : sepValidAt sep r k) :
    ∃ b c, sepSplit sep r = some (b, c) ∧ b ≠ [] ∧ c ≠ [] := by
  have hk0 : sepValidAt sep r (Nat.findGreatest (sepValidAt sep r) r.length) :=
    Nat.findGreatest_spec (sepValid_le hv) hv
  refine ⟨r.take (Nat.findGreatest (sepValidAt sep r) r.length),
    r.drop (Nat.findGreatest (sepValidAt sep r) r.length + sep.length),
    ?_, ?_, hk0.2.2.2.1⟩
  · unfold sepSplit
    rw [if_pos hk0]
  · have h1 := hk0.1
    have h2 := sepValid_le hk0
    intro htk
    rw [List.take_eq_nil_iff] at htk
    rcases htk with h | h
    all_goals first
      | omega
      | (have hl : r.length = 0 := by rw [h]; rfl
         omega)

theorem sepSplit_none {sep r : List Char} (h : ∀ k, ¬ sepValidAt sep r k) :
    sepSplit sep r = none := by
  unfold sepSplit
  rw [if_neg (h _)]

/-- A string of the Component-branch form is accepted by the reserved
branch check, so the Autorelease shape never fires on it. -/
theorem take24_of_reserved (r : List Char) :
    ("release-please--branches--".data ++ r).take 24 =
      "release-please--branches".data := by
  rw [take_concat_of_le (by decide)]
  decide

theorem autoreleaseMatches_reserved (r : List Char) :
    autoreleaseMatches ("release-please--branches--".data ++ r) = false := by
  unfold autoreleaseMatches
  rw [if_pos (take24_of_reserved r)]

/-- Whenever the input decomposes as `<b><sep><c>` with nonempty
line-terminator-free pieces, the greedy two-capture split succeeds. -/
theorem sepSplit_of_form (sep bl cl : List Char) (hb : bl ≠ []) (hc : cl ≠ [])
    (hbd : bl.all jsDot = true) (hcd : cl.all jsDot = true) :
    ∃ b' c', sepSplit sep (bl ++ (sep ++ cl)) = some (b', c') ∧ b' ≠ [] ∧ c' ≠ [] := by
  apply sepSplit_some
  show sepValidAt sep (bl ++ (sep ++ cl)) bl.length
  refine ⟨?_, ?_, ?_, ?_, ?_⟩
  · have := List.length_pos.mpr hb
    omega
  · rw [take_concat_left rfl]; exact hbd
  · rw [drop_concat_left rfl, take_concat_left rfl]
  · rw [drop_concat_add bl (sep ++ cl) (bl.length + sep.length) sep.length rfl,
      drop_concat_left rfl]
    exact hc
  · rw [drop_concat_add bl (sep ++ cl) (bl.length + sep.length) sep.length rfl,
      drop_concat_left rfl]
    exact hcd

/-- Core of claim C2 (components half): any reserved-branch string of the
components form is decoded by the Component shape. -/
theorem parse_component_shape (b c : String) (f : VersionFormat)
    (hb : b.data ≠ []) (hc : c.data ≠ [])
    (hbd : b.data.all jsDot = true) (hcd : c.data.all jsDot = true) :
    ∃ b' c', BranchName.parse
        ("release-please--branches--" ++ b ++ "--components--" ++ c) f =
      some ⟨.componentBranch, some c', some b', none⟩ := by
  have hdata : ("release-please--branches--" ++ b ++ "--components--" ++ c).data
      = "release-please--branches--".data
        ++ (b.data ++ ("--components--".data ++ c.data)) := by
    rw [String.data_append, String.data_append, String.data_append,
      List.append_assoc, List.append_assoc]
  obtain ⟨b', c', hsplit, hb', hc'⟩ :=
    sepSplit_of_form "--components--".data b.data c.data hb hc hbd hcd
  have hdec : componentDecode ("release-please--branches--".data
      ++ (b.data ++ ("--components--".data ++ c.data))) = some (b', c') := by
    have h26 : List.take 26 ("release-please--branches--".data
        ++ (b.data ++ ("--components--".data ++ c.data)))
        = "release-please--branches--".data := take_concat_left rfl
    have h26d : List.drop 26 ("release-please--branches--".data
        ++ (b.data ++ ("--components--".data ++ c.data)))
        = b.data ++ ("--components--".data ++ c.data) := drop_concat_left rfl
    unfold componentDecode
    rw [if_pos h26, h26d]
    exact hsplit
  refine ⟨b'.asString, c'.asString, ?_⟩
  unfold BranchName.parse
  rw [hdata, autoreleaseMatches_reserved, if_neg (by decide), hdec]

/-- Core of claim C2 (groups half, amended): a reserved-branch string of
the groups form in which `--components--` never occurs is decoded by the
Group shape. -/
theorem parse_group_shape (b g : String) (f : VersionFormat)
    (hb : b.data ≠ []) (hg : g.data ≠ [])
    (hbd : b.data.all jsDot = true) (hgd : g.data.all jsDot = true)
    (hno : ∀ j, ¬ occursAt "--components--".data
      ("release-please--branches--".data
        ++ (b.data ++ ("--groups--".data ++ g.data))) j) :
    ∃ b' g', BranchName.parse
        ("release-please--branches--" ++ b ++ "--groups--" ++ g) f =
      some ⟨.groupBranch, some g', some b', none⟩ := by
  have hdata : ("release-please--branches--" ++ b ++ "--groups--" ++ g).data
      = "release-please--branches--".data
        ++ (b.data ++ ("--groups--".data ++ g.data)) := by
    rw [String.data_append, String.data_append, String.data_append,
      List.append_assoc, List.append_assoc]
  obtain ⟨b', g', hsplit, hb', hg'⟩ :=
    sepSplit_of_form "--groups--".data b.data g.data hb hg hbd hgd
  have h26 : List.take 26 ("release-please--branches--".data
      ++ (b.data ++ ("--groups--".data ++ g.data)))
      = "release-please--branches--".data := take_concat_left rfl
  have h26d : List.drop 26 ("release-please--branches--".data
      ++ (b.data ++ ("--groups--".data ++ g.data)))
      = b.data ++ ("--groups--".data ++ g.data) := drop_concat_left rfl
  have hcdec : componentDecode ("release-please--branches--".data
      ++ (b.data ++ ("--groups--".data ++ g.data))) = none := by
    unfold componentDecode
    rw [if_pos h26, h26d]
    apply sepSplit_none
    intro k hv
    have h3 := hv.2.2.1
    rw [← drop_concat_add "release-please--branches--".data
      (b.data ++ ("--groups--".data ++ g.data)) (26 + k) k rfl] at h3
    exact hno (26 + k) h3
  have hgdec : groupDecode ("release-please--branches--".data
      ++ (b.data ++ ("--groups--".data ++ g.data))) = some (b', g') := by
    unfold groupDecode
    rw [if_pos h26, h26d]
    exact hsplit
  refine ⟨b'.asString, g'.asString, ?_⟩
  unfold BranchName.parse
  rw [hdata, autoreleaseMatches_reserved, if_neg (by decide), hcdec, hgdec]

/-! ### Parse and builder lemmas for the Autorelease shape -/

theorem take24_ne_release_v (T : List Char) :
    ¬ ("release-v".data ++ T).take 24 = "release-please--branches".data := by
  intro h
  have h9 := congrArg (List.take 9) h
  rw [List.take_take] at h9
  norm_num at h9
  exact absurd h9 (by decide)

/-- Claim C10 core: parsing `release-v<tail>` when the tail starts with a
digit, has no line terminator and no `-v`, and decodes under `f`, yields an
Autorelease instance whose component is the empty string. -/
theorem parse_release_v (tail : String) (f : VersionFormat) (v : Version)
    (hne : tail.data ≠ []) (hd : (tail.data.take 1).all (·.isDigit) = true)
    (hdot : tail.data.all jsDot = true)
    (hnv : ∀ j, ¬ occursAt ['-', 'v'] tail.data j)
    (hp : f.parse tail = some v) :
    BranchName.parse ("release-v" ++ tail) f =
      some ⟨.autorelease, some "", none, some v⟩ := by
  have hdata : ("release-v" ++ tail).data = "release-v".data ++ tail.data :=
    String.data_append _ _
  have hm := autoreleaseMatch_noComponent hne hd hdot hnv
  have hmm : autoreleaseMatches ("release-v".data ++ tail.data) = true := by
    unfold autoreleaseMatches
    rw [if_neg (take24_ne_release_v tail.data), hm]
    rfl
  have hctor : autoreleaseCtor ("release-v".data ++ tail.data) f =
      ⟨.autorelease, some "", none, some v⟩ := by
    unfold autoreleaseCtor
    rw [hm]
    show BranchNameData.mk .autorelease (some "") none (f.parse tail) = _
    rw [hp]
  unfold BranchName.parse
  rw [hdata, hmm, if_pos rfl, hctor]
  rfl

/-- Claim C3 core (no component): the builder re-parses the built string,
recovering the empty component and the re-decoded version. -/
theorem ofVersion_eq (v w : Version) (f : VersionFormat)
    (hne : (f.format v).data ≠ [])
    (hd : ((f.format v).data.take 1).all (·.isDigit) = true)
    (hdot : (f.format v).data.all jsDot = true)
    (hnv : ∀ j, ¬ occursAt ['-', 'v'] (f.format v).data j)
    (hp : f.parse (f.format v) = some w) :
    BranchName.ofVersion v f = ⟨.autorelease, some "", none, some w⟩ := by
  have hdata : (ofVersionStr v f).data = "release-v".data ++ (f.format v).data :=
    String.data_append _ _
  have hm := autoreleaseMatch_noComponent hne hd hdot hnv
  unfold BranchName.ofVersion autoreleaseCtor
  rw [hdata, hm]
  show BranchNameData.mk .autorelease (some "") none (f.parse (f.format v)) = _
  rw [hp]

/-- Claim C3 core (with component): the builder re-parses the built string;
for a nonempty class-character component the greedy split recovers it. -/
theorem ofComponentVersion_eq (p : String) (v w : Version) (f : VersionFormat)
    (hpne : p.data ≠ []) (hpc : p.data.all autoClass = true)
    (hne : (f.format v).data ≠ [])
    (hd : ((f.format v).data.take 1).all (·.isDigit) = true)
    (hdot : (f.format v).data.all jsDot = true)
    (hnv : ∀ j, ¬ occursAt ['-', 'v'] (f.format v).data j)
    (hp : f.parse (f.format v) = some w) :
    BranchName.ofComponentVersion p v f = ⟨.autorelease, some p, none, some w⟩ := by
  have hdata : (ofComponentVersionStr p v f).data
      = "release-".data ++ (p.data ++ ('-' :: 'v' :: (f.format v).data)) := by
    show (("release-" ++ p ++ "-v") ++ f.format v).data = _
    rw [String.data_append, String.data_append, String.data_append,
      List.append_assoc, List.append_assoc]
    rfl
  have hm := autoreleaseMatch_component hpne hpc hne hd hdot hnv
  unfold BranchName.ofComponentVersion autoreleaseCtor
  rw [hdata, hm]
  show BranchNameData.mk .autorelease (some p) none (f.parse (f.format v)) = _
  rw [hp]

/-! ### Small helpers for witnesses and claim statements -/

theorem not_occursAt_of_le {pat l : List Char} {j : Nat} (hpat : pat ≠ [])
    (hj : l.length ≤ j) : ¬ occursAt pat l j := by
  unfold occursAt
  rw [List.drop_eq_nil_of_le hj, List.take_nil]
  exact fun h => hpat h.symm

theorem forall_not_occursAt (pat l : List Char) (hpat : pat ≠ [])
    (h : ∀ j, j < l.length → ¬ occursAt pat l j) : ∀ j, ¬ occursAt pat l j := by
  intro j
  by_cases hj : j < l.length
  · exact h j hj
  · exact not_occursAt_of_le hpat (by omega)

theorem isEmpty_false_of_data_ne {p : String} (h : p.data ≠ []) :
    p.isEmpty = false := by
  rw [Bool.eq_false_iff]
  intro hh
  exact h (congrArg String.data ((String.isEmpty_iff p).mp hh))

theorem collapseDashes_head : ∀ l : List Char, (collapseDashes l).head? = l.head?
  | [] => rfl
  | [_] => rfl
  | a :: b :: rest => by
    unfold collapseDashes
    split_ifs with h
    · rw [collapseDashes_head (b :: rest)]
      simp only [Bool.and_eq_true, decide_eq_true_eq] at h
      rw [List.head?_cons, List.head?_cons, h.1, h.2]
    · rfl

theorem collapseDashes_noDouble : ∀ l : List Char, hasDoubleDash (collapseDashes l) = false
  | [] => rfl
  | [_] => rfl
  | a :: b :: rest => by
    unfold collapseDashes
    split_ifs with h
    · exact collapseDashes_noDouble (b :: rest)
    · have ih := collapseDashes_noDouble (b :: rest)
      have hh := collapseDashes_head (b :: rest)
      cases hX : collapseDashes (b :: rest) with
      | nil => rfl
      | cons x xs =>
        rw [hX] at ih hh
        rw [List.head?_cons, List.head?_cons] at hh
        have hxb : x = b := by injection hh
        unfold hasDoubleDash
        rw [ih, Bool.or_false]
        simp only [Bool.and_eq_true, decide_eq_true_eq, Bool.and_eq_false_iff]
        simp only [Bool.and_eq_true, decide_eq_true_eq, not_and] at h
        by_cases ha : a = '-'
        · right
          rw [decide_eq_false_iff_not]
          rw [hxb]
          exact h ha
        · left
          rw [decide_eq_false_iff_not]
          exact ha

theorem collapseDashes_subset : ∀ (l : List Char) (c : Char),
    c ∈ collapseDashes l → c ∈ l
  | [], c => by simp [collapseDashes]
  | [a], c => by simp [collapseDashes]
  | a :: b :: rest, c => by
    unfold collapseDashes
    split_ifs with h
    · intro hc
      exact List.mem_cons_of_mem a (collapseDashes_subset (b :: rest) c hc)
    · intro hc
      rcases List.mem_cons.mp hc with h' | h'
      · exact h' ▸ List.mem_cons_self a _
      · exact List.mem_cons_of_mem a (collapseDashes_subset (b :: rest) c h')

/-! ### Conformance with the repository's test suite

Each fact below mirrors an assertion of test/version-format.ts,
test/ruby-version-format.ts or test/util/ruby-branch-name.ts, evaluated on
the embedding. -/

theorem semver_tests :
    semverParse "1.2.3" = some ⟨1, 2, 3, none, none⟩ ∧
    semverParse "1.2.3-alpha.1" = some ⟨1, 2, 3, some "alpha.1", none⟩ ∧
    semverParse "1.2.3+build.123" = some ⟨1, 2, 3, none, some "build.123"⟩ ∧
    semverParse "1.2.3-beta.2+build.456" = some ⟨1, 2, 3, some "beta.2", some "build.456"⟩ ∧
    semverParse "not-a-version" = none ∧
    semverFormatStr ⟨1, 2, 3, none, none⟩ = "1.2.3" ∧
    semverFormatStr ⟨1, 2, 3, some "alpha.1", none⟩ = "1.2.3-alpha.1" ∧
    semverFormatStr ⟨1, 2, 3, none, some "build.123"⟩ = "1.2.3+build.123" ∧
    semverFormatStr ⟨1, 2, 3, some "beta.2", some "build.456"⟩ = "1.2.3-beta.2+build.456" := by
  refine ⟨by decide, by decide, by decide, by decide, by decide, by decide, by decide,
    by decide, by decide⟩

theorem ruby_tests :
    rubyParse "1.2.3" = some ⟨1, 2, 3, none, none⟩ ∧
    rubyParse "1.2.3.alpha.1" = some ⟨1, 2, 3, some "alpha.1", none⟩ ∧
    rubyParse "1.2.3-beta.2" = some ⟨1, 2, 3, some "beta.2", none⟩ ∧
    rubyParse "1.2.3.rc.1+build.123" = some ⟨1, 2, 3, some "rc.1+build.123", none⟩ ∧
    rubyParse "not-a-version" = none ∧
    rubyFormatStr ⟨1, 2, 3, none, none⟩ = "1.2.3" ∧
    rubyFormatStr ⟨1, 2, 3, some "alpha.1", none⟩ = "1.2.3.alpha.1" ∧
    rubyFormatStr ⟨1, 2, 3, none, some "build.123"⟩ = "1.2.3" ∧
    rubyFormatStr ⟨1, 2, 3, some "rc.1", some "build.456"⟩ = "1.2.3.rc.1" := by
  refine ⟨by decide, by decide, by decide, by decide, by decide, by decide, by decide,
    by decide, by decide⟩

theorem ruby_branch_tests :
    (BranchName.parse "release-v1.2.3.alpha" rubyFormat).bind
      (fun bn => bn.getVersion.map Version.toStr) = some "1.2.3-alpha" ∧
    branchToString (BranchName.ofVersion ⟨1, 2, 3, some "alpha.1", none⟩ rubyFormat)
      (some rubyFormat) = "release-v1.2.3.alpha.1" := by
  refine ⟨by decide, by decide⟩

/-! ### Claim theorems -/

/-- C1: Version.compare is a strict total order over all Versions: major,
minor, patch compare numerically; with equal triples a version without
prerelease is strictly greater than one with; prereleases compare as
dot-separated identifier sequences (numeric identifiers numerically,
identifiers with a non-digit lexically, numeric below alphanumeric, a
strict prefix sequence below a longer one); build metadata is never
considered, so every pair compares to exactly one of -1, 0, 1; in
particular compare(1.2.3, 1.2.3-alpha) = 1 and versions differing only in
build compare equal. -/
theorem c1_version_compare_strict_total_order :
    (∀ a b : Version, a.compare b = -1 ∨ a.compare b = 0 ∨ a.compare b = 1) ∧
    (∀ a b : Version, a.compare b = - (b.compare a)) ∧
    (∀ a b c : Version, a.compare b = -1 → b.compare c = -1 → a.compare c = -1) ∧
    Version.compare ⟨1, 2, 3, none, none⟩ ⟨1, 2, 3, some "alpha", none⟩ = 1 ∧
    (∀ a b : Version, a.major = b.major → a.minor = b.minor → a.patch = b.patch →
      a.preRelease = b.preRelease → a.compare b = 0) ∧
    Version.compare ⟨1, 2, 3, some "1", none⟩ ⟨1, 2, 3, some "alpha", none⟩ = -1 ∧
    Version.compare ⟨1, 2, 3, some "alpha", none⟩ ⟨1, 2, 3, some "alpha.1", none⟩ = -1 ∧
    Version.compare ⟨1, 2, 3, some "2", none⟩ ⟨1, 2, 3, some "10", none⟩ = -1 :=
  ⟨versionCompare_range, versionCompare_neg, versionCompare_trans,
   by decide, versionCompare_ignores_build, by decide, by decide, by decide⟩

/-- C1 witness: the transitivity and build-ignoring conjuncts applied at
concrete versions. -/
theorem c1_witness :
    Version.compare ⟨1, 0, 0, none, none⟩ ⟨2, 0, 0, none, none⟩ = -1 ∧
    Version.compare ⟨1, 2, 3, none, some "b1"⟩ ⟨1, 2, 3, none, some "b2"⟩ = 0 :=
  ⟨c1_version_compare_strict_total_order.2.2.1
      ⟨1, 0, 0, none, none⟩ ⟨1, 1, 0, none, none⟩ ⟨2, 0, 0, none, none⟩
      (by decide) (by decide),
   c1_version_compare_strict_total_order.2.2.2.2.1
      ⟨1, 2, 3, none, some "b1"⟩ ⟨1, 2, 3, none, some "b2"⟩ rfl rfl rfl rfl⟩

/-- C4 counterexample: SemverVersionFormat.parse accepts a version triple
embedded amid other text, contradicting the claim that only whole-string
conformance is accepted. -/
theorem c4_counterexample :
    semverParse "abc1.2.3def" = some ⟨1, 2, 3, none, none⟩ := by decide

/-- C4 amended: both dialect parses are unanchored — they return the
Version of the leftmost match anywhere in the text, never throw, and
return no value exactly when no substring matches the grammar (so text
with no three dot-separated numeric runs is rejected, but embedded triples
such as abc1.2.3def are accepted). -/
theorem c4_amended_unanchored_parse :
    semverParse "abc1.2.3def" = some ⟨1, 2, 3, none, none⟩ ∧
    rubyParse "abc1.2.3def" = some ⟨1, 2, 3, none, none⟩ ∧
    semverParse "not-a-version" = none ∧
    rubyParse "not-a-version" = none ∧
    semverParse "1.2" = none ∧
    rubyParse "1.2" = none ∧
    semverParse "1.2.3-beta.2+build.456" = some ⟨1, 2, 3, some "beta.2", some "build.456"⟩ := by
  refine ⟨by decide, by decide, by decide, by decide, by decide, by decide, by decide⟩

/-- C5: the Ruby dialect is asymmetric and lossy about build metadata:
every parsed Version has no build (a plus suffix is absorbed into the
prerelease), and format renders major.minor.patch[.preRelease], omitting
build even when the Version carries one. -/
theorem c5_ruby_build_lossy :
    (∀ (s : String) (v : Version), rubyParse s = some v → v.build = none) ∧
    rubyParse "1.2.3.rc.1+build.123" = some ⟨1, 2, 3, some "rc.1+build.123", none⟩ ∧
    (∀ (v : Version) (b : Option String),
      rubyFormatStr ⟨v.major, v.minor, v.patch, v.preRelease, b⟩ = rubyFormatStr v) ∧
    (∀ (ma mi pa : Nat) (p : String) (b : Option String), p ≠ "" →
      rubyFormatStr ⟨ma, mi, pa, some p, b⟩ =
        toString ma ++ "." ++ toString mi ++ "." ++ toString pa ++ ("." ++ p)) ∧
    (∀ (ma mi pa : Nat) (b : Option String),
      rubyFormatStr ⟨ma, mi, pa, none, b⟩ =
        toString ma ++ "." ++ toString mi ++ "." ++ toString pa) := by
  refine ⟨?_, by decide, ?_, ?_, ?_⟩
  · intro s v h
    unfold rubyParse at h
    rcases hscan : rubyScan s.data with _ | ⟨ma, mi, pa, pre⟩
    · rw [hscan] at h
      exact absurd h (by simp)
    · rw [hscan] at h
      injection h with h
      rw [← h]
  · intro v b
    rfl
  · intro ma mi pa p b hp
    have hpe : p.isEmpty = false := by
      apply isEmpty_false_of_data_ne
      intro hd
      exact hp (by cases p with | mk d => cases hd; rfl)
    show toString ma ++ "." ++ toString mi ++ "." ++ toString pa ++
      (if p.isEmpty = true then "" else "." ++ p) = _
    rw [hpe]
    rfl
  · intro ma mi pa b
    show toString ma ++ "." ++ toString mi ++ "." ++ toString pa ++ "" = _
    rw [String.append_empty]

/-- C5 witness: the universal conjuncts applied at concrete inputs. -/
theorem c5_witness :
    (Version.mk 1 2 3 (some "rc.1+build.123") none).build = none ∧
    rubyFormatStr ⟨9, 8, 7, some "rc.1", some "bld"⟩ =
      toString 9 ++ "." ++ toString 8 ++ "." ++ toString 7 ++ ("." ++ "rc.1") :=
  ⟨c5_ruby_build_lossy.1 "1.2.3.rc.1+build.123" ⟨1, 2, 3, some "rc.1+build.123", none⟩
      (by decide),
   c5_ruby_build_lossy.2.2.2.1 9 8 7 "rc.1" (some "bld") (by decide)⟩

/-- C6: TagName.extractComponent needs no VersionFormat and returns the
component capture, and TagName.parse followed by toString round-trips the
canonical tag release-v1.2.3-alpha.1. -/
theorem c6_tagname_extract_and_roundtrip :
    TagName.extractComponent "release-v1.2.3-alpha.1" = some "release" ∧
    (TagName.parse "release-v1.2.3-alpha.1" semverFormat).map TagNameData.toStr
      = some "release-v1.2.3-alpha.1" := by
  refine ⟨by decide, by decide⟩

/-- C8: ofGroupTargetBranch builds the reserved groups-shaped string from
the sanitized group name; sanitization maps every character outside the
word class to a dash and collapses dash runs, so the result never contains
two adjacent dashes (hence no shape delimiter) and consists of word
characters and dashes only. -/
theorem c8_group_sanitization :
    (∀ g t : String, ofGroupTargetBranchStr g t =
      "release-please--branches--" ++ t ++ "--groups--" ++ safeBranchName g) ∧
    (∀ g : String, hasDoubleDash (safeBranchName g).data = false) ∧
    safeBranchName "a/b//c" = "a-b-c" ∧
    (∀ g : String, (safeBranchName g).data.all (fun c => isWordChar c || c = '-') = true) := by
  refine ⟨fun g t => rfl, ?_, by decide, ?_⟩
  · intro g
    exact collapseDashes_noDouble _
  · intro g
    rw [List.all_eq_true]
    intro c hc
    have hmem := collapseDashes_subset _ c hc
    rcases List.mem_map.mp hmem with ⟨x, _, hx⟩
    by_cases hw : isWordChar x = true
    · rw [if_pos hw] at hx
      subst hx
      rw [hw]
      rfl
    · rw [if_neg hw] at hx
      subst hx
      rfl

/-- C9: TagName.toString renders the version via the canonical
Version.toString, not the format that parsed it: the Ruby-style tag
v1.2.3.alpha parses under the Ruby format but stringifies to v1.2.3-alpha
(while the Ruby format itself would have reproduced 1.2.3.alpha), so
parse-then-toString does not round-trip dot-style prerelease tags. -/
theorem c9_tag_tostring_canonical :
    (TagName.parse "v1.2.3.alpha" rubyFormat).map TagNameData.toStr
      = some "v1.2.3-alpha" ∧
    (TagName.parse "v1.2.3.alpha" rubyFormat).map (fun t => rubyFormat.format t.version)
      = some "1.2.3.alpha" ∧
    ("v1.2.3-alpha" : String) ≠ "v1.2.3.alpha" ∧
    (∀ t : TagNameData, t.component = none →
      t.toStr = (if t.includeV then "v" else "") ++ t.version.toStr) := by
  refine ⟨by decide, by decide, by decide, ?_⟩
  intro t h
  unfold TagNameData.toStr
  rw [h]

/-- C9 witness: the render rule applied at a concrete component-less tag. -/
theorem c9_witness :
    TagNameData.toStr ⟨⟨1, 2, 3, some "alpha", none⟩, none, "-", true⟩
      = (if true then "v" else "") ++ Version.toStr ⟨1, 2, 3, some "alpha", none⟩ :=
  c9_tag_tostring_canonical.2.2.2 ⟨⟨1, 2, 3, some "alpha", none⟩, none, "-", true⟩ rfl

/-- C2 counterexample: the string
release-please--branches--a--components--b--groups--c is of the groups
form (targetBranch a--components--b, group c, both nonempty) yet parse
resolves it as the Component shape, because the Component pattern is tried
before the Group pattern and matches greedily. -/
theorem c2_counterexample :
    ("release-please--branches--a--components--b--groups--c" : String) =
      "release-please--branches--" ++ "a--components--b" ++ "--groups--" ++ "c" ∧
    (BranchName.parse "release-please--branches--a--components--b--groups--c"
        semverFormat).map BranchNameData.shape = some .componentBranch ∧
    BranchShape.componentBranch ≠ BranchShape.groupBranch := by
  refine ⟨by decide, by decide, by decide⟩

/-- C2 amended: parse tries the six shape predicates in the fixed code
order (Autorelease, Component, Group, Default, V12 component, V12 default)
and the first structurally matching shape wins; every string of the form
release-please--branches--(B)--components--(C) with nonempty,
line-terminator-free B and C resolves as the Component shape with both
targetBranch and component extracted, and every
release-please--branches--(B)--groups--(G) string in which the delimiter
--components-- does not occur resolves as the Group shape; neither is
consumed by the more general Default shape. -/
theorem c2_amended_first_match_priority :
    (∀ (b c : String) (f : VersionFormat), b.data ≠ [] → c.data ≠ [] →
      b.data.all jsDot = true → c.data.all jsDot = true →
      ∃ b' c', BranchName.parse
          ("release-please--branches--" ++ b ++ "--components--" ++ c) f =
        some ⟨.componentBranch, some c', some b', none⟩) ∧
    (∀ (b g : String) (f : VersionFormat), b.data ≠ [] → g.data ≠ [] →
      b.data.all jsDot = true → g.data.all jsDot = true →
      (∀ j, ¬ occursAt "--components--".data
        ("release-please--branches--".data
          ++ (b.data ++ ("--groups--".data ++ g.data))) j) →
      ∃ b' g', BranchName.parse
          ("release-please--branches--" ++ b ++ "--groups--" ++ g) f =
        some ⟨.groupBranch, some g', some b', none⟩) :=
  ⟨parse_component_shape, parse_group_shape⟩

/-- C2 witness: both halves applied at concrete branch strings. -/
theorem c2_witness :
    (∃ b' c', BranchName.parse "release-please--branches--main--components--foo"
        semverFormat = some ⟨.componentBranch, some c', some b', none⟩) ∧
    (∃ b' g', BranchName.parse "release-please--branches--main--groups--g"
        semverFormat = some ⟨.groupBranch, some g', some b', none⟩) := by
  constructor
  · exact c2_amended_first_match_priority.1 "main" "foo" semverFormat
      (by decide) (by decide) (by decide) (by decide)
  · exact c2_amended_first_match_priority.2 "main" "g" semverFormat
      (by decide) (by decide) (by decide) (by decide)
      (forall_not_occursAt _ _ (by decide) (by decide))

/-- C3 counterexample: for Version 1.2.3 with prerelease +x under the
SemVer format, the builder string is release-v1.2.3-+x but the constructed
BranchName re-parses it, loses the prerelease, and stringifies to
release-v1.2.3, refuting the unconditional equality. -/
theorem c3_counterexample :
    ofVersionStr ⟨1, 2, 3, some "+x", none⟩ semverFormat = "release-v1.2.3-+x" ∧
    branchToString (BranchName.ofVersion ⟨1, 2, 3, some "+x", none⟩ semverFormat)
      (some semverFormat) = "release-v1.2.3" ∧
    ("release-v1.2.3" : String) ≠ "release-v1.2.3-+x" := by
  refine ⟨by decide, by decide, by decide⟩

/-- C3 amended: ofVersion(v, f).toString() = release-v + f.format(v) and
ofComponentVersion(p, v, f).toString() = release- + p + -v + f.format(v)
hold provided the constructor re-parse is lossless: the formatted tail
must start with a digit, contain no line terminator and no -v substring,
and be a fixpoint of f.format after f.parse; the component must be a
nonempty run of word, dash or dot characters.  The concrete examples of
the claim hold: the semver build of 1.2.3-alpha.1 renders
release-v1.2.3-alpha.1 and parsing that string back recovers the version. -/
theorem c3_amended_builder_roundtrip :
    (∀ (v w : Version) (f : VersionFormat),
      (f.format v).data ≠ [] →
      ((f.format v).data.take 1).all (·.isDigit) = true →
      (f.format v).data.all jsDot = true →
      (∀ j, ¬ occursAt ['-', 'v'] (f.format v).data j) →
      f.parse (f.format v) = some w → f.format w = f.format v →
      branchToString (BranchName.ofVersion v f) (some f) = "release-v" ++ f.format v) ∧
    (∀ (p : String) (v w : Version) (f : VersionFormat),
      p.data ≠ [] → p.data.all autoClass = true →
      (f.format v).data ≠ [] →
      ((f.format v).data.take 1).all (·.isDigit) = true →
      (f.format v).data.all jsDot = true →
      (∀ j, ¬ occursAt ['-', 'v'] (f.format v).data j) →
      f.parse (f.format v) = some w → f.format w = f.format v →
      branchToString (BranchName.ofComponentVersion p v f) (some f) =
        "release-" ++ p ++ "-v" ++ f.format v) ∧
    branchToString (BranchName.ofVersion ⟨1, 2, 3, some "alpha.1", none⟩ semverFormat)
      (some semverFormat) = "release-v1.2.3-alpha.1" ∧
    (BranchName.parse "release-v1.2.3-alpha.1" semverFormat).bind
      BranchNameData.getVersion = some ⟨1, 2, 3, some "alpha.1", none⟩ := by
  refine ⟨?_, ?_, by decide, by decide⟩
  · intro v w f hne hd hdot hnv hp hrt
    rw [ofVersion_eq v w f hne hd hdot hnv hp]
    show "release-v" ++ f.format w = "release-v" ++ f.format v
    rw [hrt]
  · intro p v w f hpne hpc hne hd hdot hnv hp hrt
    rw [ofComponentVersion_eq p v w f hpne hpc hne hd hdot hnv hp]
    have hpe : p.isEmpty = false := isEmpty_false_of_data_ne hpne
    show (if p.isEmpty = true then "release-v" ++ f.format w
      else "release-" ++ p ++ "-v" ++ f.format w) = _
    rw [hpe, if_neg (by decide), hrt]

/-- C3 witness: the amended universals applied to the semver format at
version 1.2.3-alpha.1 with component foo. -/
theorem c3_witness :
    branchToString (BranchName.ofVersion ⟨1, 2, 3, some "alpha.1", none⟩ semverFormat)
      (some semverFormat)
      = "release-v" ++ semverFormat.format ⟨1, 2, 3, some "alpha.1", none⟩ ∧
    branchToString
      (BranchName.ofComponentVersion "foo" ⟨1, 2, 3, some "alpha.1", none⟩ semverFormat)
      (some semverFormat)
      = "release-" ++ "foo" ++ "-v" ++ semverFormat.format ⟨1, 2, 3, some "alpha.1", none⟩ :=
  ⟨c3_amended_builder_roundtrip.1 ⟨1, 2, 3, some "alpha.1", none⟩
      ⟨1, 2, 3, some "alpha.1", none⟩ semverFormat (by decide) (by decide) (by decide)
      (forall_not_occursAt _ _ (by decide) (by decide)) (by decide) (by decide),
   c3_amended_builder_roundtrip.2.1 "foo" ⟨1, 2, 3, some "alpha.1", none⟩
      ⟨1, 2, 3, some "alpha.1", none⟩ semverFormat (by decide) (by decide) (by decide)
      (by decide) (by decide)
      (forall_not_occursAt _ _ (by decide) (by decide)) (by decide) (by decide)⟩

/-- C7: two error policies coexist: the Option-returning parsers
(VersionFormat.parse, TagName.parse, BranchName.parse) yield no value on
any mismatch or internal decoding failure and never throw — in particular
a structurally matched Autorelease branch whose version tail fails to
decode is downgraded to no value — while the legacy static Version.parse
throws an error carrying the offending string when no match is found and
emits its deprecation warning exactly when the custom pattern parameter is
supplied, independent of success or failure. -/
theorem c7_error_policies :
    (∀ (s : String) (r : CustomRegex),
      (Version.parseStatic s (some r)).2 = [deprecationWarning]) ∧
    (∀ s : String, (Version.parseStatic s none).2 = []) ∧
    (∀ (s : String) (r : CustomRegex), r s = none →
      (Version.parseStatic s (some r)).1 =
        .error ("unable to parse version string: " ++ s)) ∧
    (∀ s : String, semverParse s = none →
      (Version.parseStatic s none).1 =
        .error ("unable to parse version string: " ++ s)) ∧
    (∀ (s : String) (f : VersionFormat), autoreleaseMatches s.data = true →
      (autoreleaseCtor s.data f).version = none → BranchName.parse s f = none) ∧
    BranchName.parse "release-v1.2.3" ⟨fun _ => none, fun _ => ""⟩ = none ∧
    TagName.parse "no-version-here" semverFormat = none ∧
    semverParse "not-a-version" = none := by
  refine ⟨?_, ?_, ?_, ?_, ?_, by rfl, by decide, by decide⟩
  · intro s r
    show (parseWithRegex s r).2 = _
    unfold parseWithRegex
    rcases h : r s with _ | g
    · rfl
    · rfl
  · intro s
    show (parseDefault s).2 = _
    unfold parseDefault
    rcases h : semverParse s with _ | v
    · rfl
    · rfl
  · intro s r h
    show (parseWithRegex s r).1 = _
    unfold parseWithRegex
    rw [h]
  · intro s h
    show (parseDefault s).1 = _
    unfold parseDefault
    rw [h]
  · intro s f h1 h2
    unfold BranchName.parse
    rw [h1, if_pos rfl]
    show (if (autoreleaseCtor s.data f).version.isNone = true then none
      else some (autoreleaseCtor s.data f)) = none
    rw [h2]
    rfl

/-- C7 witness: the throwing and warning conjuncts applied at a concrete
string and custom pattern. -/
theorem c7_witness :
    (Version.parseStatic "nope" (some (fun _ => none))).1 =
      Except.error ("unable to parse version string: " ++ "nope") ∧
    (Version.parseStatic "nope" (some (fun _ => none))).2 = [deprecationWarning] ∧
    (Version.parseStatic "nope" none).1 =
      Except.error ("unable to parse version string: " ++ "nope") :=
  ⟨c7_error_policies.2.2.1 "nope" (fun _ => none) rfl,
   c7_error_policies.1 "nope" (fun _ => none),
   c7_error_policies.2.2.2.1 "nope" (by decide)⟩

/-- C10: for a component-less Autorelease branch string release-v(tail)
whose tail starts with a digit, has no line terminator and no -v
substring, and decodes under the supplied format, parse yields an instance
whose component field is the empty string (not absent), getComponent
returns the empty string, and toString treats the empty component as
absent and reproduces release-v followed by the formatted version; in
particular for release-v1.0.0 under the SemVer format. -/
theorem c10_empty_component :
    (∀ (tail : String) (f : VersionFormat) (v : Version),
      tail.data ≠ [] → (tail.data.take 1).all (·.isDigit) = true →
      tail.data.all jsDot = true → (∀ j, ¬ occursAt ['-', 'v'] tail.data j) →
      f.parse tail = some v →
      BranchName.parse ("release-v" ++ tail) f =
        some ⟨.autorelease, some "", none, some v⟩ ∧
      (BranchName.parse ("release-v" ++ tail) f).map BranchNameData.getComponent
        = some (some "") ∧
      branchToString ⟨.autorelease, some "", none, some v⟩ (some f)
        = "release-v" ++ f.format v) ∧
    BranchName.parse "release-v1.0.0" semverFormat =
      some ⟨.autorelease, some "", none, some ⟨1, 0, 0, none, none⟩⟩ ∧
    (BranchName.parse "release-v1.0.0" semverFormat).map BranchNameData.getComponent
      = some (some "") ∧
    branchToString ⟨.autorelease, some "", none, some ⟨1, 0, 0, none, none⟩⟩
      (some semverFormat) = "release-v1.0.0" := by
  refine ⟨?_, by decide, by decide, by decide⟩
  intro tail f v hne hd hdot hnv hp
  have h := parse_release_v tail f v hne hd hdot hnv hp
  refine ⟨h, ?_, rfl⟩
  rw [h]
  rfl

/-- C10 witness: the universal applied at release-v1.0.0 with the SemVer
format. -/
theorem c10_witness :
    BranchName.parse ("release-v" ++ "1.0.0") semverFormat =
      some ⟨.autorelease, some "", none, some ⟨1, 0, 0, none, none⟩⟩ :=
  (c10_empty_component.1 "1.0.0" semverFormat ⟨1, 0, 0, none, none⟩
    (by decide) (by decide) (by decide)
    (forall_not_occursAt _ _ (by decide) (by decide)) (by decide)).1

end ReleasePlease
